import Mathlib

/-!
Verification development for the AI news-agent backend
(`backend/app`: RSS/HN ingestion, upsert engine, relevance filter,
summarization pipeline, refresh API).  Each Python function the claims
depend on is shallowly embedded as an executable Lean definition, and
the claims are settled as theorems about those definitions.
-/

/-! ## Fingerprint utility (`rss_fetcher._compute_hash`, `hn_fetcher._compute_hash`)

The Python code computes `hashlib.sha1(text.encode("utf-8")).hexdigest()`
where `text = "||".join([title or "", url or "", (description or "")[:1000]])`.
SHA-1 is embedded below over byte lists, with 32-bit words represented as
`Nat` reduced modulo `2^32` at every arithmetic step. -/

def M32 : Nat := 4294967296

def rotl32 (n x : Nat) : Nat := ((x <<< n) % M32) ||| (x >>> (32 - n))

def w8 (x : Nat) : Nat := x % 256

/-- SHA-1 padding: append byte 0x80, zero bytes to reach 56 mod 64, then the
bit length as a 64-bit big-endian integer. -/
def padMessage (msg : List Nat) : List Nat :=
  let len := msg.length
  let zeros := (119 - len % 64) % 64
  let bitLen := len * 8
  msg ++ 128 :: List.replicate zeros 0 ++
    [w8 (bitLen >>> 56), w8 (bitLen >>> 48), w8 (bitLen >>> 40), w8 (bitLen >>> 32),
     w8 (bitLen >>> 24), w8 (bitLen >>> 16), w8 (bitLen >>> 8), w8 bitLen]

/-- Big-endian 32-bit word number `i` of a 64-byte chunk. -/
def wordAt (c : List Nat) (i : Nat) : Nat :=
  c.getD (4 * i) 0 * 16777216 + c.getD (4 * i + 1) 0 * 65536 +
    c.getD (4 * i + 2) 0 * 256 + c.getD (4 * i + 3) 0

def initWords (c : List Nat) : List Nat := (List.range 16).map (wordAt c)

/-- Extend the 16 schedule words to 80 by
`w[i] = rotl1 (w[i-3] xor w[i-8] xor w[i-14] xor w[i-16])`. -/
def extendWords : Nat → List Nat → List Nat
  | 0, w => w
  | n + 1, w =>
    let L := w.length
    let t := rotl32 1 (((w.getD (L - 3) 0) ^^^ (w.getD (L - 8) 0)) ^^^
      ((w.getD (L - 14) 0) ^^^ (w.getD (L - 16) 0)))
    extendWords n (w ++ [t])

def sha1round (w : List Nat) (st : Nat × Nat × Nat × Nat × Nat) (i : Nat) :
    Nat × Nat × Nat × Nat × Nat :=
  let (a, b, c, d, e) := st
  let f :=
    if i < 20 then (b &&& c) ||| ((b ^^^ 4294967295) &&& d)
    else if i < 40 then (b ^^^ c) ^^^ d
    else if i < 60 then ((b &&& c) ||| (b &&& d)) ||| (c &&& d)
    else (b ^^^ c) ^^^ d
  let k :=
    if i < 20 then 1518500249
    else if i < 40 then 1859775393
    else if i < 60 then 2400959708
    else 3395469782
  let temp := (rotl32 5 a + f + e + k + w.getD i 0) % M32
  (temp, a, rotl32 30 b, c, d)

def processChunk (h : Nat × Nat × Nat × Nat × Nat) (chunk : List Nat) :
    Nat × Nat × Nat × Nat × Nat :=
  let w := extendWords 64 (initWords chunk)
  let r := (List.range 80).foldl (sha1round w) h
  ((h.1 + r.1) % M32, (h.2.1 + r.2.1) % M32, (h.2.2.1 + r.2.2.1) % M32,
    (h.2.2.2.1 + r.2.2.2.1) % M32, (h.2.2.2.2 + r.2.2.2.2) % M32)

def chunksOf64 (l : List Nat) : List (List Nat) :=
  if h : l = [] then [] else l.take 64 :: chunksOf64 (l.drop 64)
termination_by l.length
decreasing_by
  simp only [List.length_drop]
  exact Nat.sub_lt (List.length_pos.mpr h) (by norm_num)

def sha1digestWords (msg : List Nat) : Nat × Nat × Nat × Nat × Nat :=
  (chunksOf64 (padMessage msg)).foldl processChunk
    (1732584193, 4023233417, 2562383102, 271733878, 3285377520)

def hexDigit (n : Nat) : Char := if n < 10 then Char.ofNat (48 + n) else Char.ofNat (87 + n)

def byteToHex (b : Nat) : List Char := [hexDigit (b / 16 % 16), hexDigit (b % 16)]

def wordToHex (x : Nat) : List Char :=
  byteToHex ((x >>> 24) % 256) ++ byteToHex ((x >>> 16) % 256) ++
    byteToHex ((x >>> 8) % 256) ++ byteToHex (x % 256)

/-- Lowercase hex digest of a byte list, as `hashlib.sha1(...).hexdigest()`. -/
def sha1hex (msg : List Nat) : String :=
  let h := sha1digestWords msg
  String.mk (wordToHex h.1 ++ wordToHex h.2.1 ++ wordToHex h.2.2.1 ++
    wordToHex h.2.2.2.1 ++ wordToHex h.2.2.2.2)

def strBytes (s : String) : List Nat := s.toUTF8.toList.map (fun b => b.toNat)

/-- Embedding of `_compute_hash(title, url, description)` from `rss_fetcher.py` (and its
verbatim copy in `hn_fetcher.py`): join title, url and the first 1000
characters of the (possibly absent) description with `"||"`, UTF-8 encode,
and take the SHA-1 hex digest. -/
def compute_hash (title url : String) (description : Option String) : String :=
  let text := String.intercalate "||" [title, url, (description.getD "").take 1000]
  sha1hex (strBytes text)

def isHexChar (c : Char) : Bool := "0123456789abcdef".data.contains c

/-! ## Data model (`models.py`)

`Article`, `Paper` and `News` have identical shape; one record type stands
for all three.  Timestamps are integers (seconds); `id` is the surrogate
key. -/

structure ArticleR where
  id : Nat
  title : String
  url : String
  source : String
  published_at : Option Int
  description : Option String
  summary : Option String
  content_hash : Option String
  created_at : Int
  updated_at : Int
deriving DecidableEq, Repr

/-- A normalized incoming feed entry after title/url/description/timestamp
extraction (`fetch_rss_sources` body, lines 113-118). -/
structure Entry where
  title : String
  url : String
  description : Option String
  published_at : Option Int
deriving DecidableEq, Repr

/-- Python truthiness of an `Optional[str]`: `None` and `""` are falsy. -/
def strOptTruthy : Option String → Bool
  | none => false
  | some s => !(s = "")

/-! ## Recency cutoff (`fetch_rss_sources` lines 106-107 and 120-122,
`fetch_hn` lines 68-69 and 140)

`max_age_days = max_age_days if max_age_days is not None else settings.max_age_days_default`
`cutoff = datetime.utcnow() - timedelta(days=max_age_days) if max_age_days and max_age_days > 0 else None`
`if cutoff and (not published_at or published_at < cutoff): continue` -/

def resolveMaxAgeDays (param : Option Int) (max_age_days_default : Int) : Int :=
  param.getD max_age_days_default

def computeCutoff (now : Int) (max_age_days : Int) : Option Int :=
  if max_age_days ≠ 0 ∧ 0 < max_age_days then some (now - 86400 * max_age_days) else none

def skipTooOld (cutoff : Option Int) (published_at : Option Int) : Bool :=
  match cutoff with
  | none => false
  | some c =>
    match published_at with
    | none => true
    | some p => decide (p < c)

/-- The `Query(None, ge=0, le=90)` validation of the `max_age_days` refresh
parameter (`routers/articles.py` line 54/74, `routers/papers.py` line 37). -/
def maxAgeParamOk (v : Int) : Bool := decide (0 ≤ v) && decide (v ≤ 90)

/-! ## Relevance classifier (`classify/keywords.py`, `classify/llm.py`,
and the filter block of `fetch_rss_sources` lines 124-133) -/

def AI_KEYWORDS : List String :=
  ["ai", "ml", "dl", "llm", "transformer", "gpt", "bert", "diffusion", "rl",
   "neural", "embedding", "prompt", "finetune", "lora", "rag", "agent",
   "arxiv", "benchmark", "dataset", "pretrain", "foundation model", "self-supervised",
   "人工智能", "机器学习", "深度学习", "大模型", "神经网络", "扩散模型", "强化学习",
   "检索增强", "微调", "算法", "论文"]

/-- Whether `needle` occurs as a contiguous substring of `hay` (Python `in`). -/
def strContainsSub (hay needle : String) : Bool :=
  (List.range (hay.data.length + 1)).any (fun i => needle.data.isPrefixOf (hay.data.drop i))

/-- Embedding of `is_ai_related_keywords(title, description)`: case-insensitive substring
match of `f"{title} {description or ''}"` against the keyword set. -/
def is_ai_related_keywords (title : String) (description : Option String) : Bool :=
  let text := (title ++ " " ++ description.getD "").toLower
  AI_KEYWORDS.any (fun k => strContainsSub text k)

/-- The remote classifier's outcome is an oracle: `some b` when the LLM
responded (`is_ai_related_llm_sync` returns True/False), `none` when it is
unavailable or errored. -/
def relevantFlag (llm : Option Bool) (title : String) (description : Option String) : Bool :=
  let keyword_hit := is_ai_related_keywords title description
  let llm_hit : Option Bool := if keyword_hit then some true else llm
  keyword_hit || (match llm_hit with | none => true | some b => b)

/-- Per-entry decision of the `fetch_rss_sources` loop before the upsert:
skip on missing URL (line 115), skip on the age cutoff (line 121), and when
the LLM filter is enabled, skip when not relevant (lines 126-133). -/
inductive EntryDecision where
  | skippedNoUrl
  | skippedTooOld
  | skippedIrrelevant
  | ingested
deriving DecidableEq, Repr

def entryDecision (enable_llm_filter : Bool) (cutoff : Option Int) (llm : Option Bool)
    (e : Entry) : EntryDecision :=
  if e.url = "" then .skippedNoUrl
  else if skipTooOld cutoff e.published_at then .skippedTooOld
  else if enable_llm_filter ∧ relevantFlag llm e.title e.description = false then .skippedIrrelevant
  else .ingested

/-! ## Upsert engine (`fetch_rss_sources` lines 135-176)

The update branch (lines 138-158), translated condition by condition:
`changed = False`;
`if description and description != existing.description` set and mark;
`if (published_at and existing.published_at is None) or (published_at and
existing.published_at and published_at != existing.published_at)` set and
mark; `if content_hash and content_hash != (existing.content_hash or "")`
set and mark; finally `if changed: existing.updated_at = utcnow(); commit`.
A `datetime` value is always truthy, so `published_at and X` is
`published_at is not None and X`. -/

def updateExisting (now : Int) (e0 : ArticleR) (description : Option String)
    (published_at : Option Int) (content_hash : String) : ArticleR × Bool :=
  let s1 : ArticleR × Bool :=
    if strOptTruthy description = true ∧ description ≠ e0.description then
      ({ e0 with description := description }, true)
    else (e0, false)
  let s2 : ArticleR × Bool :=
    if (published_at.isSome = true ∧ s1.1.published_at = none) ∨
        (published_at.isSome = true ∧ s1.1.published_at ≠ none ∧ published_at ≠ s1.1.published_at) then
      ({ s1.1 with published_at := published_at }, true)
    else s1
  let s3 : ArticleR × Bool :=
    if content_hash ≠ "" ∧ content_hash ≠ s2.1.content_hash.getD "" then
      ({ s2.1 with content_hash := some content_hash }, true)
    else s2
  if s3.2 then ({ s3.1 with updated_at := now }, true) else s3

/-- The update branch of `hn_fetcher.add_story` (lines 84-100): same shape,
but only `published_at` (from `created_at`) and `content_hash` are compared;
`description` is never touched. -/
def hnUpdateExisting (now : Int) (e0 : ArticleR) (created_at : Option Int)
    (content_hash : String) : ArticleR × Bool :=
  let s1 : ArticleR × Bool :=
    if (created_at.isSome = true ∧ e0.published_at = none) ∨
        (created_at.isSome = true ∧ e0.published_at ≠ none ∧ created_at ≠ e0.published_at) then
      ({ e0 with published_at := created_at }, true)
    else (e0, false)
  let s2 : ArticleR × Bool :=
    if content_hash ≠ "" ∧ content_hash ≠ s1.1.content_hash.getD "" then
      ({ s1.1 with content_hash := some content_hash }, true)
    else s1
  if s2.2 then ({ s2.1 with updated_at := now }, true) else s2

/-- Embedding of `session.exec(select(Article).where(Article.url == url)).first()`. -/
def findByUrl (db : List ArticleR) (url : String) : Option ArticleR :=
  db.find? (fun a => a.url = url)

/-- One iteration of the upsert loop for an entry that reached line 135:
compute the fingerprint, look up by URL, update or insert.  Returns the new
database and the rows appended to `new_or_updated` by this entry.  `newId`
stands for the surrogate key the store assigns on insert; `now` for
`datetime.utcnow()`. -/
def upsertEntry (now : Int) (src : String) (newId : Nat) (db : List ArticleR)
    (e : Entry) : List ArticleR × List ArticleR :=
  let content_hash := compute_hash e.title e.url e.description
  match findByUrl db e.url with
  | some existing =>
    let r := updateExisting now existing e.description e.published_at content_hash
    if r.2 then ((db.map fun a => if a.id = existing.id then r.1 else a), [r.1])
    else (db, [])
  | none =>
    let a : ArticleR :=
      { id := newId, title := e.title, url := e.url, source := src,
        published_at := e.published_at, description := e.description,
        summary := none, content_hash := some content_hash,
        created_at := now, updated_at := now }
    (db ++ [a], [a])

/-- Repeated application of the RSS update branch to one stored row, each
incoming entry hashed by `compute_hash` as in the pipeline (used for the
any-sequence-of-upserts invariant). -/
def applyUpdates (now : Int) (e0 : ArticleR) (incs : List Entry) : ArticleR :=
  incs.foldl
    (fun acc inc =>
      (updateExisting now acc inc.description inc.published_at
        (compute_hash inc.title inc.url inc.description)).1)
    e0

/-! ## Summarization work queue (`scheduler.py`)

`summarize_stream` (lines 64-72) and `summarize_papers_stream`
(lines 204-212) select the rows with `summary == None`, ordered by
`published_at.is_(None)` ascending (non-null rows first), then
`published_at` descending, then `created_at` descending, and take the
first `limit` rows.  The ORDER BY is modelled as a stable insertion sort
with that lexicographic SQL key. -/

def queueBefore (a b : ArticleR) : Bool :=
  match a.published_at, b.published_at with
  | some _, none => true
  | none, some _ => false
  | some p, some q => if p ≠ q then decide (q < p) else decide (b.created_at ≤ a.created_at)
  | none, none => decide (b.created_at ≤ a.created_at)

def insertSorted (x : ArticleR) : List ArticleR → List ArticleR
  | [] => [x]
  | y :: ys => if queueBefore x y then x :: y :: ys else y :: insertSorted x ys

def sortQueue : List ArticleR → List ArticleR
  | [] => []
  | x :: xs => insertSorted x (sortQueue xs)

def pendingRows (db : List ArticleR) : List ArticleR :=
  db.filter (fun a => a.summary = none)

/-- Embedding of `to_process = articles[:limit]` over the summary-absent selection. -/
def workQueue (db : List ArticleR) (limit : Nat) : List ArticleR :=
  (sortQueue (pendingRows db)).take limit

/-- Effect of one summarization run on the database.  `texts id` is the
oracle for the final text of row `id` (remote summarizer, falling back to
the extractive summarizer): `some t` when a non-empty text was produced and
the row's summary is assigned, `none` when both paths yielded nothing and
the row is skipped. -/
def summarizeRun (texts : Nat → Option String) (limit : Nat) (db : List ArticleR) :
    List ArticleR :=
  let updates := (workQueue db limit).filterMap (fun a => (texts a.id).map (fun t => (a.id, t)))
  db.map (fun a =>
    match updates.find? (fun u => u.1 = a.id) with
    | some u => { a with summary := some u.2 }
    | none => a)

/-! ## Event traces of the bounded-concurrent summarization paths
(`scheduler.py` lines 92-128 and 172-201)

Rows of `to_process` are indexed `0, ..., n-1` in submission order.  The
scheduler's choice of task completion order is an arbitrary list `order` of
row indices (a permutation of `0..n-1` in an actual run).  `ok i` abstracts
"row `i` ended up with a non-empty text" (remote result, or the extractive
fallback applied on error/empty): exactly then the code commits the summary
and yields `(id, title)`.

`summarize_stream` with `concurrency > 1` runs
`results = asyncio.run(_run_batch())` where `_run_batch` awaits
`asyncio.gather(*tasks)` - every task completes before `results` is
available - and then iterates `results` (submission order) committing and
yielding.  `summarize_stream_async` with `concurrency > 1` instead loops
`for coro in asyncio.as_completed(tasks)`, committing and yielding inside
the loop body as each task completes. -/

inductive SEv where
  | taskDone (i : Nat)
  | commit (i : Nat)
  | yielded (i : Nat)
deriving DecidableEq, Repr

/-- Trace of `summarize_stream` (sync generator), concurrency > 1:
all completions, then commit/yield per row in submission order. -/
def gatherModeTrace (ok : Nat → Bool) (n : Nat) (order : List Nat) : List SEv :=
  (order.map SEv.taskDone) ++
    (List.range n).flatMap (fun i => if ok i then [SEv.commit i, SEv.yielded i] else [])

/-- Trace of `summarize_stream_async`, concurrency > 1: per completed task,
commit and yield immediately. -/
def asCompletedTrace (ok : Nat → Bool) (order : List Nat) : List SEv :=
  order.flatMap (fun i => SEv.taskDone i :: (if ok i then [SEv.commit i, SEv.yielded i] else []))

/-- The row indices yielded by a trace, in order. -/
def yieldsOf (tr : List SEv) : List Nat :=
  tr.filterMap (fun e => match e with | .yielded i => some i | _ => none)

/-! ## Refresh endpoint authorization (`routers/articles.py` lines 59-61 and
81-83, `routers/papers.py` lines 41-44)

`articles.py` (both `/refresh` and `/refresh/stream`):
`if not settings.admin_token or token != settings.admin_token: raise HTTPException(401)`.
`papers.py`: `if settings.admin_token and token != settings.admin_token: raise HTTPException(401)`.
The caller-supplied token is `Option String` (`Query(None)` / `Header(None)`);
`settings.admin_token` defaults to `""` (unconfigured).  A handler result is
`Except Nat work`: `Except.error 401` when the guard raises before any fetch
or summarize work, `Except.ok work` when the body runs. -/

def manualRefreshStreamRejects (admin_token : String) (token : Option String) : Bool :=
  decide (admin_token = "") || decide (token ≠ some admin_token)

def refreshPapersStreamRejects (admin_token : String) (token : Option String) : Bool :=
  !(decide (admin_token = "")) && decide (token ≠ some admin_token)

def manual_refresh_stream (admin_token : String) (token : Option String)
    (work : List String) : Except Nat (List String) :=
  if manualRefreshStreamRejects admin_token token then Except.error 401 else Except.ok work

def refresh_papers_stream (admin_token : String) (token : Option String)
    (work : List String) : Except Nat (List String) :=
  if refreshPapersStreamRejects admin_token token then Except.error 401 else Except.ok work

/-! ## Theorems -/

theorem hexDigit_isHex (n : Nat) (h : n < 16) : isHexChar (hexDigit n) = true := by
  interval_cases n <;> decide

theorem byteToHex_isHex (b : Nat) : ∀ c ∈ byteToHex b, isHexChar c = true := by
  intro c hc
  simp only [byteToHex, List.mem_cons, List.not_mem_nil, or_false] at hc
  rcases hc with rfl | rfl
  · exact hexDigit_isHex _ (Nat.mod_lt _ (by norm_num))
  · exact hexDigit_isHex _ (Nat.mod_lt _ (by norm_num))

theorem wordToHex_isHex (x : Nat) : ∀ c ∈ wordToHex x, isHexChar c = true := by
  intro c hc
  simp only [wordToHex, List.mem_append] at hc
  rcases hc with ((hc | hc) | hc) | hc <;> exact byteToHex_isHex _ _ hc

theorem sha1hex_length (m : List Nat) : (sha1hex m).length = 40 := rfl

theorem sha1hex_isHex (m : List Nat) : ∀ c ∈ (sha1hex m).data, isHexChar c = true := by
  intro c hc
  simp only [sha1hex, String.mk, List.mem_append] at hc
  rcases hc with (((hc | hc) | hc) | hc) | hc <;> exact wordToHex_isHex _ _ hc

/-- C8: `_compute_hash` is a pure total function of (title, url, description);
it depends on the description only through its first 1000 characters, and its
output is a fixed-length (40-character) lowercase hex digest.  Determinism is
immediate since `compute_hash` is a function of exactly these three inputs. -/
theorem C8_fingerprint (t u : String) (d d' : Option String)
    (hpre : (d.getD "").take 1000 = (d'.getD "").take 1000) :
    compute_hash t u d = compute_hash t u d' ∧
    (compute_hash t u d).length = 40 ∧
    ∀ c ∈ (compute_hash t u d).data, isHexChar c = true := by
  refine ⟨?_, sha1hex_length _, sha1hex_isHex _⟩
  simp only [compute_hash]
  rw [hpre]

/-- Witness for C8 at a concrete input: a `None` description and an empty
description agree on their first 1000 characters, hence hash identically. -/
theorem C8_fingerprint_witness :
    ((none : Option String).getD "").take 1000 = ((some "").getD "").take 1000 ∧
    (compute_hash "t" "u" none = compute_hash "t" "u" (some "") ∧
      (compute_hash "t" "u" none).length = 40 ∧
      ∀ c ∈ (compute_hash "t" "u" none).data, isHexChar c = true) :=
  ⟨rfl, C8_fingerprint "t" "u" none (some "") rfl⟩

/-- C5: with an active cutoff `now - max_age_days`, the fetch loop skips
every entry published strictly before the cutoff, skips every entry with no
resolvable timestamp, and never skips an entry at or after the cutoff for
age reasons (the other checks may still apply). -/
theorem C5_cutoff (enable : Bool) (llm : Option Bool) (now d : Int) (e : Entry)
    (hurl : e.url ≠ "") (hd : 0 < d) :
    computeCutoff now d = some (now - 86400 * d) ∧
    (e.published_at = none →
      entryDecision enable (some (now - 86400 * d)) llm e = EntryDecision.skippedTooOld) ∧
    (∀ p, e.published_at = some p → p < now - 86400 * d →
      entryDecision enable (some (now - 86400 * d)) llm e = EntryDecision.skippedTooOld) ∧
    (∀ p, e.published_at = some p → now - 86400 * d ≤ p →
      entryDecision enable (some (now - 86400 * d)) llm e ≠ EntryDecision.skippedTooOld) := by
  refine ⟨?_, ?_, ?_, ?_⟩
  · rw [computeCutoff, if_pos ⟨by omega, hd⟩]
  · intro hp
    simp [entryDecision, skipTooOld, hurl, hp]
  · intro p hp hlt
    simp [entryDecision, skipTooOld, hurl, hp, hlt]
  · intro p hp hge
    simp only [entryDecision, skipTooOld, hp]
    rw [if_neg hurl, if_neg (by simp [not_lt.mpr hge])]
    split <;> simp

/-- Witness for C5: cutoff 7 days before `now = 10^6`; the entry has no
timestamp and is skipped. -/
theorem C5_cutoff_witness :
    (("u" : String) ≠ "" ∧ (0 : Int) < 7) ∧
    (computeCutoff 1000000 7 = some (1000000 - 86400 * 7) ∧
      ((none : Option Int) = none →
        entryDecision false (some (1000000 - 86400 * 7)) none
          ⟨"t", "u", none, none⟩ = EntryDecision.skippedTooOld) ∧
      (∀ p, (none : Option Int) = some p → p < 1000000 - 86400 * 7 →
        entryDecision false (some (1000000 - 86400 * 7)) none
          ⟨"t", "u", none, none⟩ = EntryDecision.skippedTooOld) ∧
      (∀ p, (none : Option Int) = some p → 1000000 - 86400 * 7 ≤ p →
        entryDecision false (some (1000000 - 86400 * 7)) none
          ⟨"t", "u", none, none⟩ ≠ EntryDecision.skippedTooOld)) :=
  ⟨⟨by decide, by decide⟩, C5_cutoff false none 1000000 7 ⟨"t", "u", none, none⟩
    (by decide) (by decide)⟩

/-- C6: with the relevance filter enabled, an entry with a URL that passes
the cutoff is ingested iff the keyword stage hits, or the remote classifier
answers yes, or the remote classifier is unavailable (fail-open); it is
dropped as irrelevant exactly when the keyword stage misses and the remote
classifier definitively answers no. -/
theorem C6_fail_open (cutoff : Option Int) (llm : Option Bool) (e : Entry)
    (hurl : e.url ≠ "") (hage : skipTooOld cutoff e.published_at = false) :
    (entryDecision true cutoff llm e = EntryDecision.ingested ↔
      (is_ai_related_keywords e.title e.description = true ∨ llm = some true ∨ llm = none)) ∧
    (entryDecision true cutoff llm e = EntryDecision.skippedIrrelevant ↔
      (is_ai_related_keywords e.title e.description = false ∧ llm = some false)) := by
  simp only [entryDecision, relevantFlag, hage]
  rw [if_neg hurl, if_neg (by simp)]
  cases hk : is_ai_related_keywords e.title e.description <;> rcases llm with _ | b <;>
    (try cases b) <;> simp [hk]

/-- Witness for C6: keyword stage misses on title "quantum chemistry daily",
remote classifier unavailable (`none`) - the entry is still ingested. -/
theorem C6_fail_open_witness :
    (("u" : String) ≠ "" ∧ skipTooOld none (none : Option Int) = false) ∧
    ((entryDecision true none none ⟨"quantum chemistry daily", "u", none, none⟩ =
        EntryDecision.ingested ↔
      (is_ai_related_keywords "quantum chemistry daily" none = true ∨
        (none : Option Bool) = some true ∨ (none : Option Bool) = none)) ∧
     (entryDecision true none none ⟨"quantum chemistry daily", "u", none, none⟩ =
        EntryDecision.skippedIrrelevant ↔
      (is_ai_related_keywords "quantum chemistry daily" none = false ∧
        (none : Option Bool) = some false))) :=
  ⟨⟨by decide, rfl⟩, C6_fail_open none none ⟨"quantum chemistry daily", "u", none, none⟩
    (by decide) rfl⟩

/-- C9: `max_age_days = 0` passes the endpoint's declared `ge=0, le=90`
validation, and because `0 if max_age_days and max_age_days > 0` is falsy,
no cutoff is computed: the age check skips nothing, including entries with
no resolvable timestamp. -/
theorem C9_zero_disables_cutoff (dflt now : Int) (pub : Option Int)
    (enable : Bool) (llm : Option Bool) (e : Entry) :
    maxAgeParamOk 0 = true ∧
    resolveMaxAgeDays (some 0) dflt = 0 ∧
    computeCutoff now 0 = none ∧
    skipTooOld none pub = false ∧
    entryDecision enable none llm e ≠ EntryDecision.skippedTooOld := by
  refine ⟨by decide, rfl, by simp [computeCutoff], rfl, ?_⟩
  simp only [entryDecision, skipTooOld]
  split
  · simp
  · rw [if_neg (by simp)]
    split <;> simp

/-- C2 counterexample: with no admin token configured (`admin_token = ""`,
the default) and no caller token, the articles streaming refresh
(`routers/articles.py` line 82: `if not settings.admin_token or token != settings.admin_token`)
still answers 401, while the claim's reject-condition "a token is configured
and the caller token is missing or mismatched" is false - so the claim's
"when no admin token is configured, the request proceeds" fails on this
endpoint. -/
theorem C2_counterexample :
    manual_refresh_stream "" none ["fetch", "summarize"] = Except.error 401 ∧
    ¬(("" : String) ≠ "" ∧ (none : Option String) ≠ some "") := by
  exact ⟨rfl, by simp⟩

/-- C2 amended: the papers streaming refresh behaves as claimed (401 exactly
when a token is configured and the caller token is missing or mismatched; it
proceeds when no token is configured).  The articles refresh endpoints
instead reject with 401 whenever no admin token is configured or the caller
token does not match; they proceed only when a token is configured and the
caller supplies exactly it.  In both cases a 401 result carries none of the
fetch/summarize work. -/
theorem C2_amended (a : String) (t : Option String) (work : List String) :
    (refresh_papers_stream a t work = Except.error 401 ↔ (a ≠ "" ∧ t ≠ some a)) ∧
    (a = "" → refresh_papers_stream a t work = Except.ok work) ∧
    (manual_refresh_stream a t work = Except.error 401 ↔ (a = "" ∨ t ≠ some a)) ∧
    ((a ≠ "" ∧ t = some a) → manual_refresh_stream a t work = Except.ok work) := by
  simp only [refresh_papers_stream, refreshPapersStreamRejects,
    manual_refresh_stream, manualRefreshStreamRejects]
  by_cases ha : a = "" <;> by_cases ht : t = some a <;>
    simp [ha, ht]

/-- Witness for C2 amended: token "s" configured, caller supplies "s" - the
articles stream proceeds; instantiates every conjunct concretely. -/
theorem C2_amended_witness :
    ((refresh_papers_stream "s" (some "s") ["w"] = Except.error 401 ↔
        (("s" : String) ≠ "" ∧ (some "s" : Option String) ≠ some "s")) ∧
     (("s" : String) = "" → refresh_papers_stream "s" (some "s") ["w"] = Except.ok ["w"]) ∧
     (manual_refresh_stream "s" (some "s") ["w"] = Except.error 401 ↔
        (("s" : String) = "" ∨ (some "s" : Option String) ≠ some "s")) ∧
     ((("s" : String) ≠ "" ∧ (some "s" : Option String) = some "s") →
        manual_refresh_stream "s" (some "s") ["w"] = Except.ok ["w"])) :=
  C2_amended "s" (some "s") ["w"]

/-- The update branch is a no-op (no field set, `changed` stays `False`)
when the stored row already carries the incoming description, timestamp and
fingerprint. -/
theorem updateExisting_noop (now : Int) (e0 : ArticleR) (d : Option String)
    (p : Option Int) (h : String) (hd : e0.description = d)
    (hp : e0.published_at = p) (hh : e0.content_hash = some h) :
    updateExisting now e0 d p h = (e0, false) := by
  simp only [updateExisting, hd, hp, hh]
  cases p <;> split_ifs <;> simp_all

/-- C3: ingesting an entry whose URL is not yet stored inserts exactly one
row; ingesting the identical entry (same URL, title, description,
timestamp) a second time is a no-op: the database is returned unchanged (in
particular `updated_at` is untouched) and the changed set of the second
pass is empty. -/
theorem C3_idempotent (now now2 : Int) (src src2 : String) (id id2 : Nat)
    (db : List ArticleR) (e : Entry) (hfresh : ∀ a ∈ db, a.url ≠ e.url) :
    ((upsertEntry now src id db e).1.filter (fun a => a.url = e.url)).length = 1 ∧
    upsertEntry now2 src2 id2 (upsertEntry now src id db e).1 e =
      ((upsertEntry now src id db e).1, []) := by
  have hfind : findByUrl db e.url = none := by
    rw [findByUrl, List.find?_eq_none]
    intro a ha
    simp [hfresh a ha]
  have h1 : upsertEntry now src id db e =
      (db ++ [⟨id, e.title, e.url, src, e.published_at, e.description, none,
          some (compute_hash e.title e.url e.description), now, now⟩],
       [⟨id, e.title, e.url, src, e.published_at, e.description, none,
          some (compute_hash e.title e.url e.description), now, now⟩]) := by
    simp only [upsertEntry, hfind]
  constructor
  · rw [h1]
    simp only [List.filter_append]
    rw [List.filter_eq_nil_iff.mpr (by intro a ha; simp [hfresh a ha])]
    simp
  · rw [h1]
    have hfind2 : findByUrl (db ++ [(⟨id, e.title, e.url, src, e.published_at,
        e.description, none, some (compute_hash e.title e.url e.description),
        now, now⟩ : ArticleR)]) e.url =
        some ⟨id, e.title, e.url, src, e.published_at, e.description, none,
          some (compute_hash e.title e.url e.description), now, now⟩ := by
      rw [findByUrl, List.find?_append]
      rw [show List.find? (fun a => decide (a.url = e.url)) db = none from hfind]
      simp
    simp only [upsertEntry, hfind2]
    rw [updateExisting_noop now2 _ e.description e.published_at
      (compute_hash e.title e.url e.description) rfl rfl rfl]
    simp

/-- Witness for C3: a fresh database, one concrete entry ingested twice. -/
theorem C3_idempotent_witness :
    (∀ a ∈ ([] : List ArticleR), a.url ≠ ("u" : String)) ∧
    (((upsertEntry 5 "rss" 1 [] ⟨"t", "u", some "d", some 3⟩).1.filter
        (fun a => a.url = (⟨"t", "u", some "d", some 3⟩ : Entry).url)).length = 1 ∧
     upsertEntry 9 "rss2" 2 (upsertEntry 5 "rss" 1 [] ⟨"t", "u", some "d", some 3⟩).1
        ⟨"t", "u", some "d", some 3⟩ =
       ((upsertEntry 5 "rss" 1 [] ⟨"t", "u", some "d", some 3⟩).1, [])) :=
  ⟨by simp, C3_idempotent 5 9 "rss" "rss2" 1 2 [] ⟨"t", "u", some "d", some 3⟩ (by simp)⟩

theorem mem_insertSorted (x y : ArticleR) (l : List ArticleR) :
    y ∈ insertSorted x l ↔ y = x ∨ y ∈ l := by
  induction l with
  | nil => simp [insertSorted]
  | cons a as ih =>
    simp only [insertSorted]
    split
    · simp [List.mem_cons]
    · simp only [List.mem_cons, ih]
      tauto

theorem mem_sortQueue (y : ArticleR) (l : List ArticleR) : y ∈ sortQueue l ↔ y ∈ l := by
  induction l with
  | nil => simp [sortQueue]
  | cons a as ih => simp [sortQueue, mem_insertSorted, ih]

theorem workQueue_mem (q : ArticleR) (db : List ArticleR) (limit : Nat)
    (h : q ∈ workQueue db limit) : q ∈ db ∧ q.summary = none := by
  have h1 : q ∈ sortQueue (pendingRows db) := List.take_subset _ _ h
  rw [mem_sortQueue, pendingRows, List.mem_filter] at h1
  exact ⟨h1.1, by simpa using h1.2⟩

/-- C4: a row with a non-null summary is never selected by the work queue
(the `summary == None` filter is exactly the queue membership condition) and
a summarization run leaves it untouched, whatever texts the summarizers
produce; since the statement holds for every database state, it applies to
every re-run as well. -/
theorem C4_no_resummarize (db : List ArticleR) (limit : Nat)
    (texts : Nat → Option String) (a : ArticleR) (ha : a ∈ db)
    (hs : a.summary ≠ none) (hids : (db.map ArticleR.id).Nodup) :
    a ∉ workQueue db limit ∧
    (∀ q ∈ workQueue db limit, q.summary = none) ∧
    (∀ b ∈ summarizeRun texts limit db, b.id = a.id → b = a) := by
  refine ⟨?_, fun q hq => (workQueue_mem q db limit hq).2, ?_⟩
  · intro h
    exact hs (workQueue_mem a db limit h).2
  · intro b hb hid
    simp only [summarizeRun, List.mem_map] at hb
    obtain ⟨a', ha', hEq⟩ := hb
    rcases hfind : List.find? (fun u => u.1 = a'.id)
        ((workQueue db limit).filterMap (fun q => (texts q.id).map (fun t => (q.id, t)))) with
      _ | u
    · rw [hfind] at hEq
      have : a' = a := List.inj_on_of_nodup_map hids ha' ha (by rw [← hEq] at hid; exact hid)
      rw [← hEq, this]
    · rw [hfind] at hEq
      have hbid : b.id = a'.id := by rw [← hEq]
      have ha'a : a' = a :=
        List.inj_on_of_nodup_map hids ha' ha (by rw [← hbid]; exact hid)
      have hu1 : u.1 = a'.id := by simpa using List.find?_some hfind
      have humem := List.mem_of_find?_eq_some hfind
      rw [List.mem_filterMap] at humem
      obtain ⟨q, hq, hqu⟩ := humem
      have hqid : q.id = u.1 := by
        rcases Option.map_eq_some'.mp hqu with ⟨t, ht, hu⟩
        rw [← hu]
      have hq2 := workQueue_mem q db limit hq
      have : q = a :=
        List.inj_on_of_nodup_map hids hq2.1 ha (by rw [hqid, hu1, ha'a])
      exact absurd (this ▸ hq2.2) hs

/-- Witness for C4: a two-row database where row 0 is already summarized;
the run (limit 30) only touches row 1. -/
theorem C4_no_resummarize_witness :
    ((⟨0, "A", "uA", "s", none, none, some "done", none, 1, 1⟩ : ArticleR) ∈
        ([⟨0, "A", "uA", "s", none, none, some "done", none, 1, 1⟩,
          ⟨1, "B", "uB", "s", none, none, none, none, 2, 2⟩] : List ArticleR) ∧
     (⟨0, "A", "uA", "s", none, none, some "done", none, 1, 1⟩ : ArticleR).summary ≠ none ∧
     (([⟨0, "A", "uA", "s", none, none, some "done", none, 1, 1⟩,
        ⟨1, "B", "uB", "s", none, none, none, none, 2, 2⟩] : List ArticleR).map
          ArticleR.id).Nodup) ∧
    ((⟨0, "A", "uA", "s", none, none, some "done", none, 1, 1⟩ : ArticleR) ∉
        workQueue [⟨0, "A", "uA", "s", none, none, some "done", none, 1, 1⟩,
          ⟨1, "B", "uB", "s", none, none, none, none, 2, 2⟩] 30 ∧
     (∀ q ∈ workQueue [⟨0, "A", "uA", "s", none, none, some "done", none, 1, 1⟩,
          ⟨1, "B", "uB", "s", none, none, none, none, 2, 2⟩] 30, q.summary = none) ∧
     (∀ b ∈ summarizeRun (fun i => if i = 1 then some "txt" else none) 30
          [⟨0, "A", "uA", "s", none, none, some "done", none, 1, 1⟩,
           ⟨1, "B", "uB", "s", none, none, none, none, 2, 2⟩],
        b.id = (⟨0, "A", "uA", "s", none, none, some "done", none, 1, 1⟩ : ArticleR).id →
        b = ⟨0, "A", "uA", "s", none, none, some "done", none, 1, 1⟩)) :=
  ⟨⟨by decide, by decide, by decide⟩,
   C4_no_resummarize
     [⟨0, "A", "uA", "s", none, none, some "done", none, 1, 1⟩,
      ⟨1, "B", "uB", "s", none, none, none, none, 2, 2⟩] 30
     (fun i => if i = 1 then some "txt" else none)
     ⟨0, "A", "uA", "s", none, none, some "done", none, 1, 1⟩
     (by decide) (by decide) (by decide)⟩

theorem sev_indexOf_append_left (x : SEv) (A B : List SEv) (h : x ∈ A) :
    (A ++ B).indexOf x = A.indexOf x := by
  induction A with
  | nil => cases h
  | cons a as ih =>
    simp only [List.cons_append, List.indexOf_cons]
    cases hax : a == x
    · have : x ∈ as := by
        rcases List.mem_cons.mp h with rfl | hm
        · simp at hax
        · exact hm
      simp [ih this]
    · simp

theorem sev_indexOf_append_right (x : SEv) (A B : List SEv) (h : x ∉ A) :
    (A ++ B).indexOf x = A.length + B.indexOf x := by
  induction A with
  | nil => simp
  | cons a as ih =>
    simp only [List.cons_append, List.indexOf_cons, List.length_cons]
    have hax : (a == x) = false := by
      simp only [beq_eq_false_iff_ne, ne_eq]
      intro hh
      exact h (hh ▸ List.mem_cons_self a as)
    rw [hax]
    have : x ∉ as := fun hm => h (List.mem_cons_of_mem a hm)
    simp [ih this]
    omega

theorem commit_not_in_taskDones (i : Nat) (order : List Nat) :
    SEv.commit i ∉ order.map SEv.taskDone := by
  intro h
  rcases List.mem_map.mp h with ⟨j, _, hj⟩
  cases hj

theorem yieldsOf_commitBlock (ok : Nat → Bool) (l : List Nat) :
    yieldsOf (l.flatMap fun i => if ok i then [SEv.commit i, SEv.yielded i] else []) =
      l.filter ok := by
  induction l with
  | nil => rfl
  | cons a as ih =>
    simp only [List.flatMap_cons, yieldsOf, List.filterMap_append] at ih ⊢
    cases hok : ok a <;> simp [hok, ih]

theorem yieldsOf_taskDones (order : List Nat) :
    yieldsOf (order.map SEv.taskDone) = [] := by
  induction order with
  | nil => rfl
  | cons a as ih => simp only [List.map_cons, yieldsOf, List.filterMap_cons] at ih ⊢; exact ih

/-- C1 counterexample: two pending rows, both summarizable (`ok` constantly
true), the second-submitted task (index 1) completing first.  In the trace
of `summarize_stream` with `concurrency > 1` (the `asyncio.gather` path the
refresh endpoints actually stream from), row 1's commit comes after row 0's
completion - its result is held back until every task in the batch has
finished - and the yields come out in submission order `[0, 1]`, not
completion order `[1, 0]`. -/
theorem C1_counterexample :
    (gatherModeTrace (fun _ => true) 2 [1, 0]).indexOf (SEv.taskDone 0) <
      (gatherModeTrace (fun _ => true) 2 [1, 0]).indexOf (SEv.commit 1) ∧
    yieldsOf (gatherModeTrace (fun _ => true) 2 [1, 0]) = [0, 1] := by decide

/-- C1 amended: `summarize_stream_async` (concurrency > 1) commits and
yields each summarizable row immediately after its task completes, in
completion order; `summarize_stream` (the sync generator, concurrency > 1)
holds every result back until all tasks have completed - each task
completion precedes every commit in its trace - and then commits and yields
in submission order. -/
theorem C1_amended (ok : Nat → Bool) (n : Nat) (order : List Nat) :
    (∀ i ∈ order, ok i = true → ∃ pre post,
      asCompletedTrace ok order =
        pre ++ SEv.taskDone i :: SEv.commit i :: SEv.yielded i :: post) ∧
    yieldsOf (asCompletedTrace ok order) = order.filter ok ∧
    (∀ i j, SEv.commit i ∈ gatherModeTrace ok n order → j ∈ order →
      (gatherModeTrace ok n order).indexOf (SEv.taskDone j) <
        (gatherModeTrace ok n order).indexOf (SEv.commit i)) ∧
    yieldsOf (gatherModeTrace ok n order) = (List.range n).filter ok := by
  refine ⟨?_, ?_, ?_, ?_⟩
  · intro i hi hok
    induction order with
    | nil => cases hi
    | cons a as ih =>
      rcases List.mem_cons.mp hi with rfl | hmem
      · exact ⟨[], asCompletedTrace ok as,
          by simp [asCompletedTrace, List.flatMap_cons, hok]⟩
      · obtain ⟨pre, post, heq⟩ := ih hmem
        refine ⟨(SEv.taskDone a :: (if ok a then [SEv.commit a, SEv.yielded a] else [])) ++ pre,
          post, ?_⟩
        simp only [asCompletedTrace, List.flatMap_cons] at heq ⊢
        rw [heq, List.append_assoc]
  · induction order with
    | nil => rfl
    | cons a as ih =>
      simp only [asCompletedTrace, List.flatMap_cons, yieldsOf, List.filterMap_append,
        List.filterMap_cons] at ih ⊢
      cases hok : ok a <;> simp [hok, ih]
  · intro i j hci hj
    have hjA : SEv.taskDone j ∈ order.map SEv.taskDone := List.mem_map_of_mem _ hj
    have hiA : SEv.commit i ∉ order.map SEv.taskDone := commit_not_in_taskDones i order
    rw [gatherModeTrace] at hci ⊢
    rw [sev_indexOf_append_left _ _ _ hjA, sev_indexOf_append_right _ _ _ hiA]
    have : (order.map SEv.taskDone).indexOf (SEv.taskDone j) <
        (order.map SEv.taskDone).length := List.indexOf_lt_length.mpr hjA
    omega
  · rw [gatherModeTrace, yieldsOf, List.filterMap_append]
    have h1 := yieldsOf_taskDones order
    have h2 := yieldsOf_commitBlock ok (List.range n)
    rw [yieldsOf] at h1 h2
    rw [h1, h2, List.nil_append]

/-- Witness for C1 amended at `ok = fun _ => true`, two tasks, completion
order `[1, 0]`. -/
theorem C1_amended_witness :
    (∀ i ∈ [1, 0], (fun (_ : Nat) => true) i = true → ∃ pre post,
      asCompletedTrace (fun _ => true) [1, 0] =
        pre ++ SEv.taskDone i :: SEv.commit i :: SEv.yielded i :: post) ∧
    yieldsOf (asCompletedTrace (fun _ => true) [1, 0]) = [1, 0].filter (fun _ => true) ∧
    (∀ i j, SEv.commit i ∈ gatherModeTrace (fun _ => true) 2 [1, 0] → j ∈ [1, 0] →
      (gatherModeTrace (fun _ => true) 2 [1, 0]).indexOf (SEv.taskDone j) <
        (gatherModeTrace (fun _ => true) 2 [1, 0]).indexOf (SEv.commit i)) ∧
    yieldsOf (gatherModeTrace (fun _ => true) 2 [1, 0]) =
      (List.range 2).filter (fun _ => true) :=
  C1_amended (fun _ => true) 2 [1, 0]

/-- C7: the upsert update path (`fetch_rss_sources` lines 138-158) can
change only `description`, `published_at`, `content_hash` and `updated_at`:
`id`, `title`, `url`, `source`, `summary` and `created_at` pass through
unchanged, and neither the updated row nor the changed-flag decision depends
on the stored row's `summary` in any way. -/
theorem C7_update_frame (now : Int) (e : ArticleR) (d : Option String)
    (p : Option Int) (h : String) :
    ((updateExisting now e d p h).1.id = e.id ∧
     (updateExisting now e d p h).1.title = e.title ∧
     (updateExisting now e d p h).1.url = e.url ∧
     (updateExisting now e d p h).1.source = e.source ∧
     (updateExisting now e d p h).1.summary = e.summary ∧
     (updateExisting now e d p h).1.created_at = e.created_at) ∧
    ∀ s, updateExisting now { e with summary := s } d p h =
      ({ (updateExisting now e d p h).1 with summary := s },
        (updateExisting now e d p h).2) := by
  obtain ⟨i, ti, u, so, pa, de, su, ch, ca, ua⟩ := e
  constructor
  · simp only [updateExisting]
    split_ifs <;> simp_all
  · intro s
    simp only [updateExisting]
    split_ifs <;> simp_all

theorem updateExisting_desc_none (now : Int) (e : ArticleR) (p : Option Int) (h : String) :
    (updateExisting now e none p h).1.description = e.description := by
  simp only [updateExisting, strOptTruthy]
  split_ifs <;> simp_all

theorem updateExisting_pub_none (now : Int) (e : ArticleR) (d : Option String) (h : String) :
    (updateExisting now e d none h).1.published_at = e.published_at := by
  simp only [updateExisting]
  split_ifs <;> simp_all

theorem updateExisting_desc_not_none (now : Int) (e : ArticleR) (d : Option String)
    (p : Option Int) (h : String) (hd : e.description ≠ none) :
    (updateExisting now e d p h).1.description ≠ none := by
  simp only [updateExisting]
  split_ifs <;> cases d <;> simp_all [strOptTruthy]

theorem updateExisting_pub_not_none (now : Int) (e : ArticleR) (d : Option String)
    (p : Option Int) (h : String) (hp : e.published_at ≠ none) :
    (updateExisting now e d p h).1.published_at ≠ none := by
  simp only [updateExisting]
  split_ifs <;> cases p <;> simp_all

theorem hnUpdateExisting_desc (now : Int) (e : ArticleR) (c : Option Int) (h : String) :
    (hnUpdateExisting now e c h).1.description = e.description := by
  simp only [hnUpdateExisting]
  split_ifs <;> simp_all

theorem hnUpdateExisting_pub_none (now : Int) (e : ArticleR) (h : String) :
    (hnUpdateExisting now e none h).1.published_at = e.published_at := by
  simp only [hnUpdateExisting]
  split_ifs <;> simp_all

theorem hnUpdateExisting_pub_not_none (now : Int) (e : ArticleR) (c : Option Int) (h : String)
    (hp : e.published_at ≠ none) :
    (hnUpdateExisting now e c h).1.published_at ≠ none := by
  simp only [hnUpdateExisting]
  split_ifs <;> cases c <;> simp_all

theorem applyUpdates_desc_not_none (now : Int) (incs : List Entry) (e : ArticleR)
    (hd : e.description ≠ none) : (applyUpdates now e incs).description ≠ none := by
  induction incs generalizing e with
  | nil => exact hd
  | cons inc rest ih =>
    exact ih _ (updateExisting_desc_not_none _ _ _ _ _ hd)

theorem applyUpdates_pub_not_none (now : Int) (incs : List Entry) (e : ArticleR)
    (hp : e.published_at ≠ none) : (applyUpdates now e incs).published_at ≠ none := by
  induction incs generalizing e with
  | nil => exact hp
  | cons inc rest ih =>
    exact ih _ (updateExisting_pub_not_none _ _ _ _ _ hp)

/-- C10: on re-sight of an existing URL the update branches never replace
stored data with null: an incoming entry without description leaves the
stored description unchanged (RSS path) and the HN path never touches the
description at all; an incoming entry without timestamp leaves the stored
`published_at` unchanged in both paths; and a non-null description or
`published_at` stays non-null under any sequence of RSS upserts. -/
theorem C10_no_null_overwrite (now : Int) (e : ArticleR) (d : Option String)
    (p c : Option Int) (h : String) (incs : List Entry) :
    ((updateExisting now e none p h).1.description = e.description) ∧
    ((updateExisting now e d none h).1.published_at = e.published_at) ∧
    (e.description ≠ none → (updateExisting now e d p h).1.description ≠ none) ∧
    (e.published_at ≠ none → (updateExisting now e d p h).1.published_at ≠ none) ∧
    ((hnUpdateExisting now e c h).1.description = e.description) ∧
    ((hnUpdateExisting now e none h).1.published_at = e.published_at) ∧
    (e.published_at ≠ none → (hnUpdateExisting now e c h).1.published_at ≠ none) ∧
    (e.description ≠ none → (applyUpdates now e incs).description ≠ none) ∧
    (e.published_at ≠ none → (applyUpdates now e incs).published_at ≠ none) :=
  ⟨updateExisting_desc_none now e p h,
   updateExisting_pub_none now e d h,
   updateExisting_desc_not_none now e d p h,
   updateExisting_pub_not_none now e d p h,
   hnUpdateExisting_desc now e c h,
   hnUpdateExisting_pub_none now e h,
   hnUpdateExisting_pub_not_none now e c h,
   applyUpdates_desc_not_none now incs e,
   applyUpdates_pub_not_none now incs e⟩

/-- Witness for C10 at a concrete stored row (id 1, description "desc",
published 5) and a two-entry upsert sequence. -/
theorem C10_no_null_overwrite_witness :
    ((updateExisting 7 ⟨1, "t", "u", "rss", some 5, some "desc", none, some "h0", 3, 3⟩
        none (some 9) "h1").1.description =
      (⟨1, "t", "u", "rss", some 5, some "desc", none, some "h0", 3, 3⟩ : ArticleR).description) ∧
    ((updateExisting 7 ⟨1, "t", "u", "rss", some 5, some "desc", none, some "h0", 3, 3⟩
        (some "d") none "h1").1.published_at =
      (⟨1, "t", "u", "rss", some 5, some "desc", none, some "h0", 3, 3⟩ : ArticleR).published_at) ∧
    ((⟨1, "t", "u", "rss", some 5, some "desc", none, some "h0", 3, 3⟩ : ArticleR).description ≠ none →
      (updateExisting 7 ⟨1, "t", "u", "rss", some 5, some "desc", none, some "h0", 3, 3⟩
        (some "d") (some 9) "h1").1.description ≠ none) ∧
    ((⟨1, "t", "u", "rss", some 5, some "desc", none, some "h0", 3, 3⟩ : ArticleR).published_at ≠ none →
      (updateExisting 7 ⟨1, "t", "u", "rss", some 5, some "desc", none, some "h0", 3, 3⟩
        (some "d") (some 9) "h1").1.published_at ≠ none) ∧
    ((hnUpdateExisting 7 ⟨1, "t", "u", "rss", some 5, some "desc", none, some "h0", 3, 3⟩
        (some 9) "h1").1.description =
      (⟨1, "t", "u", "rss", some 5, some "desc", none, some "h0", 3, 3⟩ : ArticleR).description) ∧
    ((hnUpdateExisting 7 ⟨1, "t", "u", "rss", some 5, some "desc", none, some "h0", 3, 3⟩
        none "h1").1.published_at =
      (⟨1, "t", "u", "rss", some 5, some "desc", none, some "h0", 3, 3⟩ : ArticleR).published_at) ∧
    ((⟨1, "t", "u", "rss", some 5, some "desc", none, some "h0", 3, 3⟩ : ArticleR).published_at ≠ none →
      (hnUpdateExisting 7 ⟨1, "t", "u", "rss", some 5, some "desc", none, some "h0", 3, 3⟩
        (some 9) "h1").1.published_at ≠ none) ∧
    ((⟨1, "t", "u", "rss", some 5, some "desc", none, some "h0", 3, 3⟩ : ArticleR).description ≠ none →
      (applyUpdates 7 ⟨1, "t", "u", "rss", some 5, some "desc", none, some "h0", 3, 3⟩
        [⟨"t2", "u", none, none⟩, ⟨"t3", "u", some "d3", some 9⟩]).description ≠ none) ∧
    ((⟨1, "t", "u", "rss", some 5, some "desc", none, some "h0", 3, 3⟩ : ArticleR).published_at ≠ none →
      (applyUpdates 7 ⟨1, "t", "u", "rss", some 5, some "desc", none, some "h0", 3, 3⟩
        [⟨"t2", "u", none, none⟩, ⟨"t3", "u", some "d3", some 9⟩]).published_at ≠ none) :=
  C10_no_null_overwrite 7 ⟨1, "t", "u", "rss", some 5, some "desc", none, some "h0", 3, 3⟩
    (some "d") (some 9) (some 9) "h1" [⟨"t2", "u", none, none⟩, ⟨"t3", "u", some "d3", some 9⟩]

